import Mathlib

/-
Verification of the batched, partitioned, retrying event-stream publisher
implemented in src/event_sender.py (class EventHubTranslationProducer).

The shallow embedding below follows the Python source:
  - TranslationEvent       the dataclass of one record;
  - Batch / Batch.tryAdd   the Azure EventDataBatch object: adding an event
                           raises ValueError when the batch byte size would
                           exceed the maximum, modelled as an Option result;
  - sendBatchWithRetry     the tenacity decorator
                           retry(stop=stop_after_attempt(3),
                                 wait=wait_exponential(multiplier=1, min=2, max=10))
                           applied to producer.send_batch;
  - Session / send_translation_events / send_translation_event / connect /
    close                  the producer class itself.

External effects are abstracted as parameters:
  - sz : TranslationEvent -> Nat is the serialized byte size of one record
    (json.dumps of to_dict; it embeds a wall-clock timestamp, so it cannot
    be a pure function of the record and stays abstract);
  - M : Nat is the maximum batch byte size enforced by the service;
  - beh : Nat -> Nat -> AttemptResult gives the outcome the sink produces
    for attempt i of the n-th batch send of a call.
-/

set_option maxRecDepth 8192

namespace EventSender

/-! ## Outcome of one network attempt against the sink -/

/-- Result of a single producer.send_batch network attempt. The split between
transient errors (network, timeout, sink busy) and permanent errors
(authentication failure, malformed payload) follows the error taxonomy of the
spec; whether the code distinguishes them is exactly what claims C2 and C3 ask. -/
inductive AttemptResult where
  | success
  | transientError
  | permanentError
deriving Repr, DecidableEq

def AttemptResult.isSuccess : AttemptResult → Bool
  | AttemptResult.success => true
  | AttemptResult.transientError => false
  | AttemptResult.permanentError => false

/-! ## The tenacity retry decorator on _send_batch_with_retry -/

/-- Wait computed by tenacity wait_exponential(multiplier=1, min=2, max=10)
after the k-th attempt (1-based) has failed: clamp(1 * 2 ^ k) into [2, 10]. -/
def backoffWait (k : Nat) : Nat := max 2 (min (2 ^ k) 10)

/-- Trace of one _send_batch_with_retry call: how many attempts ran, the
waits that elapsed between consecutive attempts, and the final outcome. -/
structure RetryTrace where
  attemptsMade : Nat
  waits : List Nat
  succeeded : Bool
deriving Repr, DecidableEq

/-- The tenacity retry loop: run attempt number a; on success stop, otherwise
(if fuel remains before stop_after_attempt triggers) wait backoffWait a and
run the next attempt. tenacity was given no retry= filter, so it retries on
every exception, whatever its classification. -/
def retryLoop (beh : Nat → AttemptResult) : Nat → Nat → List Nat → RetryTrace
  | a, 0, waits =>
    if (beh a).isSuccess then { attemptsMade := a, waits := waits, succeeded := true }
    else { attemptsMade := a, waits := waits, succeeded := false }
  | a, fuel + 1, waits =>
    if (beh a).isSuccess then { attemptsMade := a, waits := waits, succeeded := true }
    else retryLoop beh (a + 1) fuel (waits ++ [backoffWait a])

/-- _send_batch_with_retry:
retry(stop=stop_after_attempt(3), wait=wait_exponential(multiplier=1, min=2, max=10)):
at most 3 attempts in total, the first one immediate. -/
def sendBatchWithRetry (beh : Nat → AttemptResult) : RetryTrace :=
  retryLoop beh 1 2 []

/-- Sink stub of the spec: fails transiently on the first N attempts, then
succeeds from attempt N+1 on. -/
def failsThenSucceeds (N : Nat) : Nat → AttemptResult :=
  fun i => if i ≤ N then AttemptResult.transientError else AttemptResult.success

/-! ## Data model -/

/-- The TranslationEvent dataclass. confidence_score is a Python float used
only as opaque payload by the publisher; it is modelled as a rational. -/
structure TranslationEvent where
  translated_text : String
  source_text : String
  source_language : String
  target_language : String
  confidence_score : Option Rat
  translation_service : Option String
  user_id : Option String
  session_id : Option String
deriving Repr, DecidableEq

/-- The partition key computed at the top of send_translation_events from the
first record of the call. -/
def mkPartitionKey (e : TranslationEvent) : String :=
  e.source_language ++ "-to-" ++ e.target_language

/-- An Azure EventDataBatch: ordered serialized records plus the partition
key the batch was created with. -/
structure Batch (α : Type) where
  partition_key : String
  events : List α
deriving Repr, DecidableEq

/-- Total serialized byte size of a list of records. -/
def listBytes (sz : α → Nat) (l : List α) : Nat := (l.map sz).sum

/-- EventDataBatch.add: appends when the batch stays within the maximum byte
size M, raises ValueError (modelled as none) when it would overflow. -/
def Batch.tryAdd (M : Nat) (sz : α → Nat) (b : Batch α) (e : α) : Option (Batch α) :=
  if listBytes sz b.events + sz e ≤ M then
    some { partition_key := b.partition_key, events := b.events ++ [e] }
  else
    none

/-! ## The batching loop of send_translation_events -/

/-- Errors a send_translation_events call can raise. notConnected is the
RuntimeError of the producer guard, batchSendFailed an EventHubError that
survived _send_batch_with_retry, valueTooLarge the ValueError raised by
event_data_batch.add on a freshly created batch (line 151 of the source,
outside any try/except ValueError). -/
inductive SendError where
  | notConnected
  | batchSendFailed
  | valueTooLarge
deriving Repr, DecidableEq

/-- Observable outcome of one send_translation_events call: the batches the
sink acknowledged (delivered), every batch a send was attempted on in order
(attempted), and the exception that escaped the call, if any. -/
structure SendOutcome (α : Type) where
  delivered : List (Batch α)
  attempted : List (Batch α)
  error : Option SendError
deriving Repr, DecidableEq

/-- The for-loop of send_translation_events (source lines 133 to 159).
cur is event_data_batch, sent the batches already delivered in this call,
and sink n tells whether the n-th _send_batch_with_retry of the call
returns or raises. On ValueError from add, the open batch is sent, a fresh
batch with the same partition key is created and the overflowing record is
inserted into it; that second insert is not guarded, so its ValueError
aborts the call. After the loop the final batch is sent if it is non-empty. -/
def sendLoop (M : Nat) (sz : α → Nat) (sink : Nat → Bool) (pk : String) :
    List α → Batch α → List (Batch α) → SendOutcome α
  | [], cur, sent =>
    if cur.events.length > 0 then
      if sink sent.length then
        { delivered := sent ++ [cur], attempted := sent ++ [cur], error := none }
      else
        { delivered := sent, attempted := sent ++ [cur],
          error := some SendError.batchSendFailed }
    else
      { delivered := sent, attempted := sent, error := none }
  | e :: rest, cur, sent =>
    match Batch.tryAdd M sz cur e with
    | some cur2 => sendLoop M sz sink pk rest cur2 sent
    | none =>
      if sink sent.length then
        match Batch.tryAdd M sz { partition_key := pk, events := [] } e with
        | some cur2 => sendLoop M sz sink pk rest cur2 (sent ++ [cur])
        | none =>
          { delivered := sent ++ [cur], attempted := sent ++ [cur],
            error := some SendError.valueTooLarge }
      else
        { delivered := sent, attempted := sent ++ [cur],
          error := some SendError.batchSendFailed }

/-! ## The producer session -/

/-- The mutable statistics dictionary of the producer (start_time, a wall
clock value never read by any claim, is omitted). -/
structure Stats where
  events_sent : Nat
  batches_sent : Nat
  errors : Nat
deriving Repr, DecidableEq

/-- Session state of EventHubTranslationProducer: producer is the truthiness
of self._producer, statsLogCount counts how many times _log_stats has
emitted the final statistics snapshot (the observable of claim C7). -/
structure Session where
  producer : Bool
  stats : Stats
  statsLogCount : Nat
deriving Repr, DecidableEq

/-- A session as built by __init__ with valid configuration: no producer
client yet, all counters zero. -/
def freshSession : Session :=
  { producer := false
    stats := { events_sent := 0, batches_sent := 0, errors := 0 }
    statsLogCount := 0 }

/-- A session right after a successful connect(). -/
def connSession : Session :=
  { producer := true
    stats := { events_sent := 0, batches_sent := 0, errors := 0 }
    statsLogCount := 0 }

/-- connect(): builds the producer client. ok models whether
EventHubProducerClient.from_connection_string succeeds; on failure the
exception propagates and self._producer keeps its previous value. -/
def connect (s : Session) (ok : Bool) : Session × Bool :=
  if ok then ({ s with producer := true }, true) else (s, false)

/-- close(): when self._producer is set, closes it and calls _log_stats,
which emits the statistics snapshot. The source never resets
self._producer to None, so the guard stays truthy forever afterwards. -/
def close (s : Session) : Session :=
  if s.producer then { s with statsLogCount := s.statsLogCount + 1 } else s

/-- Number of records held by a list of batches. -/
def recCount (bs : List (Batch α)) : Nat := (bs.map fun b => b.events.length).sum

/-- send_translation_events (source lines 113 to 170). Raises RuntimeError
when not connected (before the try block, so errors is untouched), returns
silently on an empty list, otherwise computes the partition key from the
first record and runs the batching loop; each successful
_send_batch_with_retry added its batch and record count to the statistics
inside the loop, which sums to the delta over the delivered batches, and the
except handlers add one to errors when any exception escapes the loop. -/
def send_translation_events (M : Nat) (sz : TranslationEvent → Nat)
    (beh : Nat → Nat → AttemptResult) (s : Session)
    (translations : List TranslationEvent) : Session × SendOutcome TranslationEvent :=
  if s.producer then
    match translations with
    | [] => (s, { delivered := [], attempted := [], error := none })
    | e :: _ =>
      let pk := mkPartitionKey e
      let sink : Nat → Bool := fun n => (sendBatchWithRetry (beh n)).succeeded
      let out := sendLoop M sz sink pk translations
        { partition_key := pk, events := [] } []
      let st := s.stats
      let st2 : Stats :=
        { events_sent := st.events_sent + recCount out.delivered
          batches_sent := st.batches_sent + out.delivered.length
          errors := st.errors + (if out.error.isSome then 1 else 0) }
      ({ s with stats := st2 }, out)
  else
    (s, { delivered := [], attempted := [], error := some SendError.notConnected })

/-- send_translation_event (source lines 109 to 111): defined by delegating
to send_translation_events on the one-element list. -/
def send_translation_event (M : Nat) (sz : TranslationEvent → Nat)
    (beh : Nat → Nat → AttemptResult) (s : Session)
    (translation : TranslationEvent) : Session × SendOutcome TranslationEvent :=
  send_translation_events M sz beh s [translation]

/-! ## Session traces -/

/-- One operation a caller can run against a session. -/
inductive SessionOp where
  | connectOp (ok : Bool)
  | closeOp
  | publishOp (records : List TranslationEvent) (beh : Nat → Nat → AttemptResult)

def stepOp (M : Nat) (sz : TranslationEvent → Nat) (s : Session) : SessionOp → Session
  | SessionOp.connectOp ok => (connect s ok).1
  | SessionOp.closeOp => close s
  | SessionOp.publishOp records beh => (send_translation_events M sz beh s records).1

def runOps (M : Nat) (sz : TranslationEvent → Nat) (s : Session) :
    List SessionOp → Session
  | [] => s
  | op :: ops => runOps M sz (stepOp M sz s op) ops

/-- A whole session of publish calls: each call is a record list together
with the attempt outcomes its batch sends will meet. -/
def runPublishes (M : Nat) (sz : TranslationEvent → Nat) (s : Session) :
    List (List TranslationEvent × (Nat → Nat → AttemptResult)) → Session
  | [] => s
  | c :: cs => runPublishes M sz (send_translation_events M sz c.2 s c.1).1 cs

/-- The outcome a publish call produces; on a connected session it does not
depend on the counters accumulated so far, so it is read off against a fresh
connected session. -/
def callOutcome (M : Nat) (sz : TranslationEvent → Nat)
    (c : List TranslationEvent × (Nat → Nat → AttemptResult)) :
    SendOutcome TranslationEvent :=
  (send_translation_events M sz c.2 connSession c.1).2

/-! ## The packing policy stated by the spec -/

/-- Greedy first-fit-in-order packing policy, written from the words of the
spec (section 4.1): append each record to the open batch; when it would not
fit, close the open batch and start a fresh one holding that record; at the
end flush the open batch if non-empty. Used as the comparison point of
claim C1. -/
def greedyFirstFit (M : Nat) (sz : α → Nat) : List α → List α → List (List α)
  | [], openB => if openB.isEmpty then [] else [openB]
  | e :: rest, openB =>
    if listBytes sz openB + sz e ≤ M then greedyFirstFit M sz rest (openB ++ [e])
    else openB :: greedyFirstFit M sz rest [e]

/-! ## Concrete inputs used by witnesses and counterexamples -/

/-- Concrete record builder for test inputs; the publisher only ever reads
the two language fields and the serialized size. -/
def mkEvent (st : String) (src tgt : String) : TranslationEvent :=
  { translated_text := "t", source_text := st, source_language := src
    target_language := tgt, confidence_score := none, translation_service := none
    user_id := none, session_id := none }

def evA : TranslationEvent := mkEvent "aaaa" "en" "es"
def evB : TranslationEvent := mkEvent "bbbb" "en" "es"
def evC : TranslationEvent := mkEvent "cccc" "en" "es"
def evD : TranslationEvent := mkEvent "dddddd" "en" "es"
def evE : TranslationEvent := mkEvent "eeeeee" "en" "es"
def evBig : TranslationEvent := mkEvent "xxxxxxxxxxxxxxxxxxxx" "en" "es"
def evKo : TranslationEvent := mkEvent "hello" "en" "ko"
def evEs : TranslationEvent := mkEvent "world" "en" "es"

/-- Concrete serialized-size function for test inputs: the length of the
source text. -/
def szLen (e : TranslationEvent) : Nat := e.source_text.length

/-- Sink behavior where every attempt of every batch succeeds. -/
def behOK : Nat → Nat → AttemptResult := fun _ _ => AttemptResult.success

/-- Sink behavior where every attempt of the first batch fails transiently
and every other batch succeeds immediately. -/
def behFailFirst : Nat → Nat → AttemptResult :=
  fun n _ => if n = 0 then AttemptResult.transientError else AttemptResult.success

def wCalls : List (List TranslationEvent × (Nat → Nat → AttemptResult)) :=
  [([evA, evB, evC], behOK), ([evD, evE], behFailFirst)]

/-! ## Helper lemmas -/

theorem listBytes_snoc (sz : α → Nat) (l : List α) (e : α) :
    listBytes sz (l ++ [e]) = listBytes sz l + sz e := by
  simp [listBytes]

theorem tryAdd_fits {M : Nat} {sz : α → Nat} {b : Batch α} {e : α}
    (h : listBytes sz b.events + sz e ≤ M) :
    Batch.tryAdd M sz b e
      = some { partition_key := b.partition_key, events := b.events ++ [e] } := by
  simp [Batch.tryAdd, h]

theorem tryAdd_overflows {M : Nat} {sz : α → Nat} {b : Batch α} {e : α}
    (h : ¬ listBytes sz b.events + sz e ≤ M) :
    Batch.tryAdd M sz b e = none := by
  simp [Batch.tryAdd, h]

theorem retryLoop_congr (b1 b2 : Nat → AttemptResult)
    (h : ∀ i, (b1 i).isSuccess = (b2 i).isSuccess) :
    ∀ (fuel a : Nat) (w : List Nat), retryLoop b1 a fuel w = retryLoop b2 a fuel w := by
  intro fuel
  induction fuel with
  | zero => intro a w; simp only [retryLoop, h a]
  | succ f ih =>
    intro a w
    simp only [retryLoop, h a]
    by_cases hs : (b2 a).isSuccess = true
    · simp only [hs, if_true]
    · simp only [hs, if_false, Bool.not_eq_true] at *
      simp only [hs, Bool.false_eq_true, if_false, ih]

theorem sendBatchWithRetry_all_success (b : Nat → AttemptResult)
    (h : ∀ i, b i = AttemptResult.success) :
    sendBatchWithRetry b = { attemptsMade := 1, waits := [], succeeded := true } := by
  simp [sendBatchWithRetry, retryLoop, h 1, AttemptResult.isSuccess]

/-! ## Lemmas about the batching loop -/

theorem greedyFirstFit_flatten (M : Nat) (sz : α → Nat) :
    ∀ (rs openB : List α), (greedyFirstFit M sz rs openB).flatten = openB ++ rs := by
  intro rs
  induction rs with
  | nil =>
    intro openB
    by_cases h : openB = [] <;> simp [greedyFirstFit, h]
  | cons e rest ih =>
    intro openB
    by_cases h : listBytes sz openB + sz e ≤ M
    · simp [greedyFirstFit, h, ih]
    · simp [greedyFirstFit, h, ih]

theorem greedyFirstFit_sizes (M : Nat) (sz : α → Nat) :
    ∀ (rs openB : List α), (∀ e ∈ rs, sz e ≤ M) → listBytes sz openB ≤ M →
      ∀ c ∈ greedyFirstFit M sz rs openB, listBytes sz c ≤ M := by
  intro rs
  induction rs with
  | nil =>
    intro openB _ hop c hc
    by_cases h : openB = []
    · simp [greedyFirstFit, h] at hc
    · simp [greedyFirstFit, h] at hc
      exact hc ▸ hop
  | cons e rest ih =>
    intro openB hall hop c hc
    by_cases h : listBytes sz openB + sz e ≤ M
    · simp only [greedyFirstFit, if_pos h] at hc
      refine ih (openB ++ [e]) (fun x hx => hall x (List.mem_cons_of_mem e hx)) ?_ c hc
      rw [listBytes_snoc]
      exact h
    · simp only [greedyFirstFit, if_neg h, List.mem_cons] at hc
      rcases hc with rfl | hc
      · exact hop
      · refine ih [e] (fun x hx => hall x (List.mem_cons_of_mem e hx)) ?_ c hc
        have he : sz e ≤ M := hall e (List.mem_cons_self e rest)
        simpa [listBytes] using he

theorem sendLoop_greedy (M : Nat) (sz : α → Nat) (sink : Nat → Bool) (pk : String)
    (hsink : ∀ n, sink n = true) :
    ∀ (rs : List α) (cur : Batch α) (sent : List (Batch α)),
      (∀ e ∈ rs, sz e ≤ M) → listBytes sz cur.events ≤ M →
      (sendLoop M sz sink pk rs cur sent).delivered.map Batch.events
          = sent.map Batch.events ++ greedyFirstFit M sz rs cur.events
        ∧ (sendLoop M sz sink pk rs cur sent).error = none
        ∧ (sendLoop M sz sink pk rs cur sent).attempted
            = (sendLoop M sz sink pk rs cur sent).delivered := by
  intro rs
  induction rs with
  | nil =>
    intro cur sent _ _
    by_cases hc : cur.events = []
    · have hlen : ¬ cur.events.length > 0 := by simp [hc]
      simp [sendLoop, hlen, greedyFirstFit, hc]
    · have hlen : cur.events.length > 0 := List.length_pos.mpr hc
      simp [sendLoop, hlen, hsink sent.length, greedyFirstFit, hc]
  | cons e rest ih =>
    intro cur sent hfit hcur
    by_cases hadd : listBytes sz cur.events + sz e ≤ M
    · have ht := @tryAdd_fits _ M sz cur e hadd
      simp only [sendLoop, ht]
      have hrest : ∀ x ∈ rest, sz x ≤ M := fun x hx => hfit x (List.mem_cons_of_mem e hx)
      have hcur2 : listBytes sz
          ({ partition_key := cur.partition_key, events := cur.events ++ [e] } :
            Batch α).events ≤ M := by
        rw [listBytes_snoc]
        exact hadd
      obtain ⟨h1, h2, h3⟩ := ih ⟨cur.partition_key, cur.events ++ [e]⟩ sent hrest hcur2
      refine ⟨?_, h2, h3⟩
      rw [h1]
      simp only [greedyFirstFit, if_pos hadd]
    · have ht := @tryAdd_overflows _ M sz cur e hadd
      have he : sz e ≤ M := hfit e (List.mem_cons_self e rest)
      have ht2 : Batch.tryAdd M sz { partition_key := pk, events := [] } e
          = some { partition_key := pk, events := [e] } := by
        simp [Batch.tryAdd, listBytes, he]
      simp only [sendLoop, ht, hsink sent.length, eq_self_iff_true, if_true, ht2]
      have hrest : ∀ x ∈ rest, sz x ≤ M := fun x hx => hfit x (List.mem_cons_of_mem e hx)
      have hcur2 : listBytes sz
          ({ partition_key := pk, events := [e] } : Batch α).events ≤ M := by
        simpa [listBytes] using he
      obtain ⟨h1, h2, h3⟩ := ih ⟨pk, [e]⟩ (sent ++ [cur]) hrest hcur2
      refine ⟨?_, h2, h3⟩
      rw [h1]
      simp [greedyFirstFit, if_neg hadd]

theorem sendLoop_shape (M : Nat) (sz : α → Nat) (sink : Nat → Bool) (pk : String) :
    ∀ (rs : List α) (cur : Batch α) (sent : List (Batch α)),
      ((sendLoop M sz sink pk rs cur sent).error = some SendError.batchSendFailed →
        ∃ b, (sendLoop M sz sink pk rs cur sent).attempted
          = (sendLoop M sz sink pk rs cur sent).delivered ++ [b])
      ∧ ((sendLoop M sz sink pk rs cur sent).error ≠ some SendError.batchSendFailed →
        (sendLoop M sz sink pk rs cur sent).attempted
          = (sendLoop M sz sink pk rs cur sent).delivered)
      ∧ (sendLoop M sz sink pk rs cur sent).error ≠ some SendError.notConnected := by
  intro rs
  induction rs with
  | nil =>
    intro cur sent
    by_cases hc : cur.events.length > 0
    · by_cases hs : sink sent.length = true
      · simp only [sendLoop, if_pos hc, hs, eq_self_iff_true, if_true]
        exact ⟨fun h => absurd h (by simp), fun _ => by simp, by simp⟩
      · simp only [sendLoop, if_pos hc, hs, Bool.false_eq_true, if_false]
        exact ⟨fun _ => ⟨cur, rfl⟩, fun h => absurd rfl h, by simp⟩
    · simp only [sendLoop, if_neg hc]
      exact ⟨fun h => absurd h (by simp), fun _ => by simp, by simp⟩
  | cons e rest ih =>
    intro cur sent
    cases ht : Batch.tryAdd M sz cur e with
    | some cur2 =>
      simp only [sendLoop, ht]
      exact ih cur2 sent
    | none =>
      by_cases hs : sink sent.length = true
      · cases ht2 : Batch.tryAdd M sz { partition_key := pk, events := [] } e with
        | some cur2 =>
          simp only [sendLoop, ht, hs, eq_self_iff_true, if_true, ht2]
          exact ih cur2 (sent ++ [cur])
        | none =>
          simp only [sendLoop, ht, hs, eq_self_iff_true, if_true, ht2]
          exact ⟨fun h => absurd h (by simp), fun _ => by simp, by simp⟩
      · simp only [sendLoop, ht, hs, Bool.false_eq_true, if_false]
        exact ⟨fun _ => ⟨cur, rfl⟩, fun h => absurd rfl h, by simp⟩

theorem sendLoop_keys (M : Nat) (sz : α → Nat) (sink : Nat → Bool) (pk : String) :
    ∀ (rs : List α) (cur : Batch α) (sent : List (Batch α)),
      cur.partition_key = pk → (∀ b ∈ sent, b.partition_key = pk) →
      ∀ b ∈ (sendLoop M sz sink pk rs cur sent).attempted, b.partition_key = pk := by
  intro rs
  induction rs with
  | nil =>
    intro cur sent hcur hsent
    have hboth : ∀ b ∈ sent ++ [cur], b.partition_key = pk := by
      intro b hb
      rcases List.mem_append.mp hb with hb | hb
      · exact hsent b hb
      · rw [List.mem_singleton.mp hb]
        exact hcur
    by_cases hc : cur.events.length > 0
    · by_cases hs : sink sent.length = true
      · simp only [sendLoop, if_pos hc, hs, eq_self_iff_true, if_true]
        exact hboth
      · simp only [sendLoop, if_pos hc, hs, Bool.false_eq_true, if_false]
        exact hboth
    · simp only [sendLoop, if_neg hc]
      exact hsent
  | cons e rest ih =>
    intro cur sent hcur hsent
    have hboth : ∀ b ∈ sent ++ [cur], b.partition_key = pk := by
      intro b hb
      rcases List.mem_append.mp hb with hb | hb
      · exact hsent b hb
      · rw [List.mem_singleton.mp hb]
        exact hcur
    cases ht : Batch.tryAdd M sz cur e with
    | some cur2 =>
      simp only [sendLoop, ht]
      have hcur2 : cur2.partition_key = pk := by
        rw [Batch.tryAdd] at ht
        by_cases hfit : listBytes sz cur.events + sz e ≤ M
        · rw [if_pos hfit] at ht
          cases ht
          exact hcur
        · rw [if_neg hfit] at ht
          cases ht
      exact ih cur2 sent hcur2 hsent
    | none =>
      by_cases hs : sink sent.length = true
      · cases ht2 : Batch.tryAdd M sz { partition_key := pk, events := [] } e with
        | some cur2 =>
          simp only [sendLoop, ht, hs, eq_self_iff_true, if_true, ht2]
          have hcur2 : cur2.partition_key = pk := by
            rw [Batch.tryAdd] at ht2
            by_cases hfit : listBytes sz
                ({ partition_key := pk, events := [] } : Batch α).events + sz e ≤ M
            · rw [if_pos hfit] at ht2
              cases ht2
              rfl
            · rw [if_neg hfit] at ht2
              cases ht2
          exact ih cur2 (sent ++ [cur]) hcur2 hboth
        | none =>
          simp only [sendLoop, ht, hs, eq_self_iff_true, if_true, ht2]
          exact hboth
      · simp only [sendLoop, ht, hs, Bool.false_eq_true, if_false]
        exact hboth

/-! ## Projection lemmas for send_translation_events -/

theorem send_events_out_cons (M : Nat) (sz : TranslationEvent → Nat)
    (beh : Nat → Nat → AttemptResult) (s : Session) (e : TranslationEvent)
    (rest : List TranslationEvent) (hc : s.producer = true) :
    (send_translation_events M sz beh s (e :: rest)).2
      = sendLoop M sz (fun n => (sendBatchWithRetry (beh n)).succeeded)
          (mkPartitionKey e) (e :: rest)
          { partition_key := mkPartitionKey e, events := [] } [] := by
  simp [send_translation_events, hc]

theorem send_events_stats_cons (M : Nat) (sz : TranslationEvent → Nat)
    (beh : Nat → Nat → AttemptResult) (s : Session) (e : TranslationEvent)
    (rest : List TranslationEvent) (hc : s.producer = true) :
    (send_translation_events M sz beh s (e :: rest)).1
      = { s with stats :=
          { events_sent := s.stats.events_sent
              + recCount (send_translation_events M sz beh s (e :: rest)).2.delivered
            batches_sent := s.stats.batches_sent
              + (send_translation_events M sz beh s (e :: rest)).2.delivered.length
            errors := s.stats.errors
              + (if (send_translation_events M sz beh s (e :: rest)).2.error.isSome
                  then 1 else 0) } } := by
  simp [send_translation_events, hc]

/-! ## Claim C1: packing correctness -/

/-- C1: when every record of a non-empty call fits a batch by itself and
every batch send succeeds, send_translation_events raises nothing and the
batches it sends each stay within the maximum size M, concatenate in order
back to the input records, and are exactly as many as the greedy
first-fit-in-order policy stated by the spec yields. -/
theorem send_events_packing_correct (M : Nat) (sz : TranslationEvent → Nat)
    (beh : Nat → Nat → AttemptResult) (s : Session) (records : List TranslationEvent)
    (hc : s.producer = true) (hne : records ≠ [])
    (hfit : ∀ e ∈ records, sz e ≤ M)
    (hbeh : ∀ n i, beh n i = AttemptResult.success) :
    (send_translation_events M sz beh s records).2.error = none
    ∧ (∀ b ∈ (send_translation_events M sz beh s records).2.delivered,
        listBytes sz b.events ≤ M)
    ∧ ((send_translation_events M sz beh s records).2.delivered.map Batch.events).flatten
        = records
    ∧ (send_translation_events M sz beh s records).2.delivered.length
        = (greedyFirstFit M sz records []).length := by
  have hsink : ∀ n, (fun n => (sendBatchWithRetry (beh n)).succeeded) n = true := by
    intro n
    show (sendBatchWithRetry (beh n)).succeeded = true
    rw [sendBatchWithRetry_all_success (beh n) (fun i => hbeh n i)]
  cases records with
  | nil => exact absurd rfl hne
  | cons e rest =>
    rw [send_events_out_cons M sz beh s e rest hc]
    obtain ⟨h1, h2, _⟩ := sendLoop_greedy M sz
      (fun n => (sendBatchWithRetry (beh n)).succeeded) (mkPartitionKey e) hsink
      (e :: rest) { partition_key := mkPartitionKey e, events := [] } [] hfit
      (by simp [listBytes])
    refine ⟨h2, ?_, ?_, ?_⟩
    · intro b hb
      have hbe : b.events ∈ greedyFirstFit M sz (e :: rest) [] := by
        have hmm : b.events ∈ (sendLoop M sz
            (fun n => (sendBatchWithRetry (beh n)).succeeded) (mkPartitionKey e)
            (e :: rest) { partition_key := mkPartitionKey e, events := [] }
            []).delivered.map Batch.events := List.mem_map_of_mem Batch.events hb
        rw [h1] at hmm
        simpa using hmm
      exact greedyFirstFit_sizes M sz (e :: rest) [] hfit (by simp [listBytes])
        b.events hbe
    · rw [h1]
      simp [greedyFirstFit_flatten]
    · have hlen := congrArg List.length h1
      simpa using hlen

theorem send_events_packing_correct_witness :
    ([evA, evB, evC] : List TranslationEvent) ≠ []
    ∧ (send_translation_events 10 szLen behOK connSession [evA, evB, evC]).2.error = none
    ∧ ((send_translation_events 10 szLen behOK connSession
        [evA, evB, evC]).2.delivered.map Batch.events).flatten = [evA, evB, evC]
    ∧ (send_translation_events 10 szLen behOK connSession
        [evA, evB, evC]).2.delivered.length
        = (greedyFirstFit 10 szLen [evA, evB, evC] []).length := by
  have h := send_events_packing_correct 10 szLen behOK connSession [evA, evB, evC]
    rfl (by decide) (by decide) (fun n i => rfl)
  exact ⟨by decide, h.1, h.2.2.1, h.2.2.2⟩

/-! ## Claim C4: an oversized record aborts the call -/

theorem sendLoop_oversized (M : Nat) (sz : α → Nat) (sink : Nat → Bool) (pk : String)
    (hsink : ∀ n, sink n = true) (big : α) (post : List α) (hbig : M < sz big) :
    ∀ (pre : List α) (cur : Batch α) (sent : List (Batch α)),
      (∀ e ∈ pre, sz e ≤ M) → listBytes sz cur.events ≤ M →
      (sendLoop M sz sink pk (pre ++ big :: post) cur sent).error
          = some SendError.valueTooLarge
        ∧ ((sendLoop M sz sink pk (pre ++ big :: post) cur sent).attempted.map
            Batch.events).flatten
          = (sent.map Batch.events).flatten ++ cur.events ++ pre := by
  intro pre
  induction pre with
  | nil =>
    intro cur sent _ _
    have h1 : ¬ listBytes sz cur.events + sz big ≤ M := by omega
    have ht := @tryAdd_overflows _ M sz cur big h1
    have h2 : ¬ listBytes sz ({ partition_key := pk, events := [] } : Batch α).events
        + sz big ≤ M := by
      simp only [listBytes, List.map_nil, List.sum_nil, Nat.zero_add]
      omega
    have ht2 := @tryAdd_overflows _ M sz { partition_key := pk, events := [] } big h2
    simp only [List.nil_append, sendLoop, ht, hsink sent.length, eq_self_iff_true,
      if_true, ht2]
    refine ⟨by trivial, ?_⟩
    simp
  | cons e pre2 ih =>
    intro cur sent hall hcur
    by_cases hadd : listBytes sz cur.events + sz e ≤ M
    · have ht := @tryAdd_fits _ M sz cur e hadd
      simp only [List.cons_append, sendLoop, ht]
      obtain ⟨h1, h2⟩ := ih ⟨cur.partition_key, cur.events ++ [e]⟩ sent
        (fun x hx => hall x (List.mem_cons_of_mem e hx))
        (by rw [listBytes_snoc]; exact hadd)
      refine ⟨h1, ?_⟩
      simp only [List.append_eq]
      rw [h2]
      simp [List.append_assoc]
    · have ht := @tryAdd_overflows _ M sz cur e hadd
      have he : sz e ≤ M := hall e (List.mem_cons_self e pre2)
      have ht2 : Batch.tryAdd M sz { partition_key := pk, events := [] } e
          = some { partition_key := pk, events := [e] } := by
        simp [Batch.tryAdd, listBytes, he]
      simp only [List.cons_append, sendLoop, ht, hsink sent.length, eq_self_iff_true,
        if_true, ht2]
      obtain ⟨h1, h2⟩ := ih ⟨pk, [e]⟩ (sent ++ [cur])
        (fun x hx => hall x (List.mem_cons_of_mem e hx))
        (by simpa [listBytes] using he)
      refine ⟨h1, ?_⟩
      simp only [List.append_eq]
      rw [h2]
      simp [List.append_assoc]

/-- C4 counterexample: with batch limit 10, the size-20 record evBig
published between evA and evC never lands in a batch, but instead of a
reported RecordTooLarge failure that lets the rest continue, the uncaught
ValueError aborts the call: only the already open batch holding evA was
sent, and the subsequent record evC is neither packed nor sent. -/
theorem oversized_record_counterexample :
    (send_translation_events 10 szLen behOK connSession [evA, evBig, evC]).2.error
        = some SendError.valueTooLarge
    ∧ (send_translation_events 10 szLen behOK connSession [evA, evBig, evC]).2.attempted
        = [{ partition_key := "en-to-es", events := [evA] }]
    ∧ ¬ (∃ b ∈ (send_translation_events 10 szLen behOK connSession
          [evA, evBig, evC]).2.attempted, evC ∈ b.events) := by
  decide

/-- C4 corrected: a record larger than the maximum batch size never appears
in any emitted batch, but it is not reported as a per-record RecordTooLarge
failure: the ValueError raised when inserting it into the fresh batch
escapes the loop, so the call flushes only the records that preceded the
oversized one, increments the session error counter once, and the records
after it are not packed or sent. -/
theorem oversized_record_aborts_call (M : Nat) (sz : TranslationEvent → Nat)
    (beh : Nat → Nat → AttemptResult) (s : Session)
    (pre post : List TranslationEvent) (big : TranslationEvent)
    (hc : s.producer = true) (hbeh : ∀ n i, beh n i = AttemptResult.success)
    (hpre : ∀ e ∈ pre, sz e ≤ M) (hbig : M < sz big) :
    (send_translation_events M sz beh s (pre ++ big :: post)).2.error
        = some SendError.valueTooLarge
    ∧ ((send_translation_events M sz beh s (pre ++ big :: post)).2.attempted.map
        Batch.events).flatten = pre
    ∧ (send_translation_events M sz beh s (pre ++ big :: post)).1.stats.errors
        = s.stats.errors + 1 := by
  have hsink : ∀ n, (fun n => (sendBatchWithRetry (beh n)).succeeded) n = true := by
    intro n
    show (sendBatchWithRetry (beh n)).succeeded = true
    rw [sendBatchWithRetry_all_success (beh n) (fun i => hbeh n i)]
  cases pre with
  | nil =>
    have hout := send_events_out_cons M sz beh s big post hc
    have hstats := send_events_stats_cons M sz beh s big post hc
    obtain ⟨h1, h2⟩ := sendLoop_oversized M sz
      (fun n => (sendBatchWithRetry (beh n)).succeeded) (mkPartitionKey big) hsink
      big post hbig [] { partition_key := mkPartitionKey big, events := [] } []
      (by simp) (by simp [listBytes])
    simp only [List.nil_append] at h1 h2 ⊢
    refine ⟨by rw [hout]; exact h1, by rw [hout]; rw [h2]; simp, ?_⟩
    rw [hstats]
    have herr : (send_translation_events M sz beh s (big :: post)).2.error
        = some SendError.valueTooLarge := by
      rw [hout]
      exact h1
    simp [herr]
  | cons e pre2 =>
    have hpre2 : ∀ x ∈ pre2, sz x ≤ M :=
      fun x hx => hpre x (List.mem_cons_of_mem e hx)
    have he : sz e ≤ M := hpre e (List.mem_cons_self e pre2)
    have hout := send_events_out_cons M sz beh s e (pre2 ++ big :: post) hc
    have hstats := send_events_stats_cons M sz beh s e (pre2 ++ big :: post) hc
    obtain ⟨h1, h2⟩ := sendLoop_oversized M sz
      (fun n => (sendBatchWithRetry (beh n)).succeeded) (mkPartitionKey e) hsink
      big post hbig (e :: pre2) { partition_key := mkPartitionKey e, events := [] } []
      hpre (by simp [listBytes])
    simp only [List.cons_append] at h1 h2 ⊢
    refine ⟨by rw [hout]; exact h1, by rw [hout]; rw [h2]; simp, ?_⟩
    rw [hstats]
    have herr : (send_translation_events M sz beh s (e :: (pre2 ++ big :: post))).2.error
        = some SendError.valueTooLarge := by
      rw [hout]
      exact h1
    simp [herr]

theorem oversized_record_aborts_call_witness :
    (send_translation_events 10 szLen behOK connSession [evA, evBig, evC]).2.error
        = some SendError.valueTooLarge
    ∧ ((send_translation_events 10 szLen behOK connSession
        [evA, evBig, evC]).2.attempted.map Batch.events).flatten = [evA]
    ∧ (send_translation_events 10 szLen behOK connSession
        [evA, evBig, evC]).1.stats.errors = connSession.stats.errors + 1 :=
  oversized_record_aborts_call 10 szLen behOK connSession [evA] [evC] evBig
    rfl (fun n i => rfl) (by decide) (by decide)

/-! ## Claim C5: the call aborts at the first failing batch -/

/-- C5 counterexample: two records that the greedy policy packs into two
batches, with a sink that keeps failing the first batch send: the call
aborts at that first failure with only one send attempted, the second
record is never packed or sent, and the call produces no delivered count,
only the raised error. -/
theorem first_failure_aborts_counterexample :
    (send_translation_events 10 szLen behFailFirst connSession [evD, evE]).2.error
        = some SendError.batchSendFailed
    ∧ (send_translation_events 10 szLen behFailFirst connSession
        [evD, evE]).2.attempted.length = 1
    ∧ (greedyFirstFit 10 szLen [evD, evE] []).length = 2
    ∧ ¬ (∃ b ∈ (send_translation_events 10 szLen behFailFirst connSession
          [evD, evE]).2.attempted, evE ∈ b.events) := by
  decide

/-- C5 corrected: when a batch send fails after retries, the exception
aborts the call at that batch: the attempted batches are exactly the
delivered ones plus the single failing batch (records not yet consumed are
never packed or attempted), the session error counter increments once, and
the only per-call report is the raised exception while the delivered counts
surface through the session statistics. -/
theorem first_failure_aborts_call (M : Nat) (sz : TranslationEvent → Nat)
    (beh : Nat → Nat → AttemptResult) (s : Session) (records : List TranslationEvent)
    (hc : s.producer = true)
    (hf : (send_translation_events M sz beh s records).2.error
        = some SendError.batchSendFailed) :
    (∃ b, (send_translation_events M sz beh s records).2.attempted
        = (send_translation_events M sz beh s records).2.delivered ++ [b])
    ∧ (send_translation_events M sz beh s records).1.stats.errors
        = s.stats.errors + 1
    ∧ (send_translation_events M sz beh s records).1.stats.batches_sent
        = s.stats.batches_sent
          + (send_translation_events M sz beh s records).2.delivered.length
    ∧ (send_translation_events M sz beh s records).1.stats.events_sent
        = s.stats.events_sent
          + recCount (send_translation_events M sz beh s records).2.delivered := by
  cases records with
  | nil =>
    rw [show (send_translation_events M sz beh s []).2
        = { delivered := [], attempted := [], error := none } from
      by simp [send_translation_events, hc]] at hf
    exact absurd hf (by simp)
  | cons e rest =>
    have hout := send_events_out_cons M sz beh s e rest hc
    have hstats := send_events_stats_cons M sz beh s e rest hc
    obtain ⟨hsh, _, _⟩ := sendLoop_shape M sz
      (fun n => (sendBatchWithRetry (beh n)).succeeded) (mkPartitionKey e)
      (e :: rest) { partition_key := mkPartitionKey e, events := [] } []
    refine ⟨?_, ?_, ?_, ?_⟩
    · rw [hout]
      rw [hout] at hf
      exact hsh hf
    · rw [hstats]
      simp [hf]
    · rw [hstats]
    · rw [hstats]

theorem first_failure_aborts_call_witness :
    (send_translation_events 10 szLen behFailFirst connSession
        [evD, evE]).1.stats.errors = connSession.stats.errors + 1
    ∧ (send_translation_events 10 szLen behFailFirst connSession
        [evD, evE]).1.stats.batches_sent
      = connSession.stats.batches_sent
        + (send_translation_events 10 szLen behFailFirst connSession
            [evD, evE]).2.delivered.length := by
  have h := first_failure_aborts_call 10 szLen behFailFirst connSession [evD, evE]
    rfl (by decide)
  exact ⟨h.2.1, h.2.2.1⟩

/-! ## Claim C6: statistics accounting across a session -/

theorem send_events_outcome_stable (M : Nat) (sz : TranslationEvent → Nat)
    (c : List TranslationEvent × (Nat → Nat → AttemptResult)) (s : Session)
    (hc : s.producer = true) :
    (send_translation_events M sz c.2 s c.1).2 = callOutcome M sz c := by
  obtain ⟨rs, beh⟩ := c
  cases rs with
  | nil => simp [send_translation_events, hc, callOutcome, connSession]
  | cons e rest =>
    rw [send_events_out_cons M sz beh s e rest hc]
    show _ = (send_translation_events M sz beh connSession (e :: rest)).2
    rw [send_events_out_cons M sz beh connSession e rest rfl]

theorem send_events_step (M : Nat) (sz : TranslationEvent → Nat)
    (c : List TranslationEvent × (Nat → Nat → AttemptResult)) (s : Session)
    (hc : s.producer = true) :
    (send_translation_events M sz c.2 s c.1).1.producer = true
    ∧ (send_translation_events M sz c.2 s c.1).1.statsLogCount = s.statsLogCount
    ∧ (send_translation_events M sz c.2 s c.1).1.stats.batches_sent
        = s.stats.batches_sent + (callOutcome M sz c).delivered.length
    ∧ (send_translation_events M sz c.2 s c.1).1.stats.events_sent
        = s.stats.events_sent + recCount (callOutcome M sz c).delivered
    ∧ (send_translation_events M sz c.2 s c.1).1.stats.errors
        = s.stats.errors + (if (callOutcome M sz c).error.isSome then 1 else 0) := by
  have hue := send_events_outcome_stable M sz c s hc
  obtain ⟨rs, beh⟩ := c
  cases rs with
  | nil =>
    simp [send_translation_events, hc, callOutcome, connSession, recCount]
  | cons e rest =>
    have hstats := send_events_stats_cons M sz beh s e rest hc
    rw [hstats] at *
    rw [← hue]
    exact ⟨hc, rfl, rfl, rfl, rfl⟩

/-- C6: across any sequence of publish calls on a connected session, the
final statistics count exactly the batches delivered, the records inside
them, and one error per failed call, whatever the retry pattern each batch
send went through: no failure is counted once per retry attempt. -/
theorem session_stats_accounting (M : Nat) (sz : TranslationEvent → Nat)
    (calls : List (List TranslationEvent × (Nat → Nat → AttemptResult))) :
    ∀ (s : Session), s.producer = true →
      (runPublishes M sz s calls).producer = true
      ∧ (runPublishes M sz s calls).stats.batches_sent
          = s.stats.batches_sent
            + (calls.map fun c => (callOutcome M sz c).delivered.length).sum
      ∧ (runPublishes M sz s calls).stats.events_sent
          = s.stats.events_sent
            + (calls.map fun c => recCount (callOutcome M sz c).delivered).sum
      ∧ (runPublishes M sz s calls).stats.errors
          = s.stats.errors
            + (calls.map fun c =>
                if (callOutcome M sz c).error.isSome then 1 else 0).sum := by
  induction calls with
  | nil =>
    intro s hc
    exact ⟨hc, by simp [runPublishes], by simp [runPublishes], by simp [runPublishes]⟩
  | cons c cs ih =>
    intro s hc
    have hstep := send_events_step M sz c s hc
    have hrec := ih (send_translation_events M sz c.2 s c.1).1 hstep.1
    refine ⟨hrec.1, ?_, ?_, ?_⟩
    · show (runPublishes M sz (send_translation_events M sz c.2 s c.1).1 cs).stats.batches_sent = _
      rw [hrec.2.1, hstep.2.2.1]
      simp [Nat.add_assoc]
    · show (runPublishes M sz (send_translation_events M sz c.2 s c.1).1 cs).stats.events_sent = _
      rw [hrec.2.2.1, hstep.2.2.2.1]
      simp [Nat.add_assoc]
    · show (runPublishes M sz (send_translation_events M sz c.2 s c.1).1 cs).stats.errors = _
      rw [hrec.2.2.2, hstep.2.2.2.2]
      simp [Nat.add_assoc]

theorem session_stats_accounting_witness :
    (runPublishes 10 szLen connSession wCalls).stats.batches_sent
      = connSession.stats.batches_sent
        + (wCalls.map fun c => (callOutcome 10 szLen c).delivered.length).sum
    ∧ (runPublishes 10 szLen connSession wCalls).stats.events_sent
      = connSession.stats.events_sent
        + (wCalls.map fun c => recCount (callOutcome 10 szLen c).delivered).sum
    ∧ (runPublishes 10 szLen connSession wCalls).stats.errors
      = connSession.stats.errors
        + (wCalls.map fun c =>
            if (callOutcome 10 szLen c).error.isSome then 1 else 0).sum := by
  have h := session_stats_accounting 10 szLen wCalls connSession rfl
  exact ⟨h.2.1, h.2.2.1, h.2.2.2⟩

/-! ## Claim C8: partition key from the first record -/

/-- C8: every batch a non-empty call attempts to send carries the partition
key derived from the first record as source-to-target, including fresh
batches opened after an overflow; in the scenario of the spec, an en/ko
record followed by an en/es record yields a single sender invocation whose
batch has key en-to-ko and holds both records. -/
theorem partition_key_from_first_record (M : Nat) (sz : TranslationEvent → Nat)
    (beh : Nat → Nat → AttemptResult) (s : Session) (e : TranslationEvent)
    (rest : List TranslationEvent) (hc : s.producer = true) :
    (∀ b ∈ (send_translation_events M sz beh s (e :: rest)).2.attempted,
      b.partition_key = e.source_language ++ "-to-" ++ e.target_language)
    ∧ (send_translation_events 1000 (fun _ => 1) behOK connSession
        [evKo, evEs]).2.attempted
      = [{ partition_key := "en-to-ko", events := [evKo, evEs] }] := by
  refine ⟨?_, by decide⟩
  rw [send_events_out_cons M sz beh s e rest hc]
  exact sendLoop_keys M sz (fun n => (sendBatchWithRetry (beh n)).succeeded)
    (mkPartitionKey e) (e :: rest) { partition_key := mkPartitionKey e, events := [] }
    [] rfl (by simp)

theorem partition_key_from_first_record_witness :
    (send_translation_events 1000 (fun _ => 1) behOK connSession
        [evKo, evEs]).2.attempted
      = [{ partition_key := "en-to-ko", events := [evKo, evEs] }] :=
  (partition_key_from_first_record 1000 (fun _ => 1) behOK connSession evKo [evEs]
    rfl).2

/-! ## Claim C10: the not-connected guard after a successful connect -/

theorem stepOp_preserves_producer (M : Nat) (sz : TranslationEvent → Nat)
    (s : Session) (op : SessionOp) (hc : s.producer = true) :
    (stepOp M sz s op).producer = true := by
  cases op with
  | connectOp ok => cases ok <;> simp [stepOp, connect, hc]
  | closeOp => simp [stepOp, close, hc]
  | publishOp records beh => exact (send_events_step M sz (records, beh) s hc).1

theorem runOps_preserves_producer (M : Nat) (sz : TranslationEvent → Nat) :
    ∀ (ops : List SessionOp) (s : Session), s.producer = true →
      (runOps M sz s ops).producer = true := by
  intro ops
  induction ops with
  | nil => intro s hc; exact hc
  | cons op ops ih =>
    intro s hc
    exact ih (stepOp M sz s op) (stepOp_preserves_producer M sz s op hc)

theorem not_connected_guard (M : Nat) (sz : TranslationEvent → Nat)
    (beh : Nat → Nat → AttemptResult) (rs : List TranslationEvent) (s : Session) :
    ((send_translation_events M sz beh s rs).2.error = some SendError.notConnected
      ↔ s.producer = false) := by
  cases hp : s.producer with
  | false => simp [send_translation_events, hp]
  | true =>
    simp only [hp, Bool.true_eq_false, iff_false]
    intro h
    cases rs with
    | nil =>
      rw [show (send_translation_events M sz beh s []).2
          = { delivered := [], attempted := [], error := none } from
        by simp [send_translation_events, hp]] at h
      exact absurd h (by simp)
    | cons e rest =>
      rw [send_events_out_cons M sz beh s e rest hp] at h
      exact (sendLoop_shape M sz (fun n => (sendBatchWithRetry (beh n)).succeeded)
        (mkPartitionKey e) (e :: rest)
        { partition_key := mkPartitionKey e, events := [] } []).2.2 h

/-- C10: close never clears the producer handle, so once connect has
succeeded every later publish passes the not-connected guard no matter how
many close or publish operations ran in between; the guard error occurs
exactly on sessions whose producer handle is absent, that is, sessions that
never connected successfully. -/
theorem connected_session_never_not_connected (M : Nat) (sz : TranslationEvent → Nat)
    (s : Session) (ops : List SessionOp) (rs : List TranslationEvent)
    (beh : Nat → Nat → AttemptResult) (hc : s.producer = true) :
    (runOps M sz s ops).producer = true
    ∧ (send_translation_events M sz beh (runOps M sz s ops) rs).2.error
        ≠ some SendError.notConnected
    ∧ ∀ s2 : Session,
        ((send_translation_events M sz beh s2 rs).2.error
            = some SendError.notConnected
          ↔ s2.producer = false) := by
  have hp := runOps_preserves_producer M sz ops s hc
  refine ⟨hp, ?_, fun s2 => not_connected_guard M sz beh rs s2⟩
  intro h
  have hfalse := (not_connected_guard M sz beh rs (runOps M sz s ops)).mp h
  rw [hp] at hfalse
  exact absurd hfalse (by simp)

theorem connected_session_never_not_connected_witness :
    (runOps 10 szLen connSession [SessionOp.closeOp, SessionOp.closeOp]).producer = true
    ∧ (send_translation_events 10 szLen behOK
        (runOps 10 szLen connSession [SessionOp.closeOp, SessionOp.closeOp])
        [evA]).2.error ≠ some SendError.notConnected := by
  have h := connected_session_never_not_connected 10 szLen connSession
    [SessionOp.closeOp, SessionOp.closeOp] [evA] behOK rfl
  exact ⟨h.1, h.2.1⟩

/-! ## Claim C2: retry bound and backoff shape -/

/-- C2: against a sink that fails transiently exactly N times and then
succeeds, _send_batch_with_retry succeeds iff N is below the 3-attempt
ceiling; the waits between consecutive attempts are the clamped doubling
sequence of wait_exponential (all within [2, 10]) and the first attempt
runs with no preceding wait, the trace holding one wait per extra attempt. -/
theorem send_batch_retry_bound (N : Nat) :
    ((sendBatchWithRetry (failsThenSucceeds N)).succeeded = true ↔ N < 3)
    ∧ (sendBatchWithRetry (failsThenSucceeds N)).attemptsMade = min (N + 1) 3
    ∧ (sendBatchWithRetry (failsThenSucceeds N)).waits
        = (List.range ((sendBatchWithRetry (failsThenSucceeds N)).attemptsMade - 1)).map
            (fun k => backoffWait (k + 1))
    ∧ ∀ w ∈ (sendBatchWithRetry (failsThenSucceeds N)).waits, 2 ≤ w ∧ w ≤ 10 :=
  match N with
  | 0 => by decide
  | 1 => by decide
  | 2 => by decide
  | n + 3 => by
    have e1 : failsThenSucceeds (n + 3) 1 = AttemptResult.transientError := by
      simp only [failsThenSucceeds]
      rw [if_pos (by omega)]
    have e2 : failsThenSucceeds (n + 3) 2 = AttemptResult.transientError := by
      simp only [failsThenSucceeds]
      rw [if_pos (by omega)]
    have e3 : failsThenSucceeds (n + 3) 3 = AttemptResult.transientError := by
      simp only [failsThenSucceeds]
      rw [if_pos (by omega)]
    have h1 : sendBatchWithRetry (failsThenSucceeds (n + 3))
        = { attemptsMade := 3, waits := [2, 4], succeeded := false } := by
      simp [sendBatchWithRetry, retryLoop, e1, e2, e3, AttemptResult.isSuccess, backoffWait]
    rw [h1]
    refine ⟨?_, ?_, by decide, by decide⟩
    · show (false = true ↔ n + 3 < 3)
      simp only [Bool.false_eq_true, false_iff]
      omega
    · show (3 = min (n + 3 + 1) 3)
      omega

/-! ## Claim C3: permanent errors are in fact retried -/

/-- C3 counterexample: a sink returning a permanent error on every attempt
does not lead to a single attempt with no delay; the decorator retries it. -/
theorem permanent_error_retried_counterexample :
    ¬ ((sendBatchWithRetry (fun _ => AttemptResult.permanentError)).attemptsMade = 1
        ∧ (sendBatchWithRetry (fun _ => AttemptResult.permanentError)).waits = []) := by
  decide

/-- C3 corrected: the tenacity decorator carries no retry filter, so an
error classified as permanent is retried exactly like a transient one: the
retry trace depends only on which attempts succeed, never on the error
classification, and with a permanent error on every attempt the send makes
3 attempts with backoff waits 2 and 4 elapsing before it fails. -/
theorem permanent_error_retried_like_transient
    (b1 b2 : Nat → AttemptResult) (h : ∀ i, (b1 i).isSuccess = (b2 i).isSuccess) :
    sendBatchWithRetry b1 = sendBatchWithRetry b2
    ∧ sendBatchWithRetry (fun _ => AttemptResult.permanentError)
        = { attemptsMade := 3, waits := [2, 4], succeeded := false } :=
  ⟨retryLoop_congr b1 b2 h 2 1 [], by decide⟩

theorem permanent_error_retried_like_transient_witness :
    sendBatchWithRetry (fun _ => AttemptResult.permanentError)
      = sendBatchWithRetry (fun _ => AttemptResult.transientError) :=
  (permanent_error_retried_like_transient (fun _ => AttemptResult.permanentError)
    (fun _ => AttemptResult.transientError) (fun _ => rfl)).1

/-! ## Claim C9: single-event send is the singleton batch send -/

/-- C9: send_translation_event is defined as send_translation_events on the
one-element list, so the two agree on the resulting session state, the
batches sent, the statistics deltas and the error raised. -/
theorem send_single_is_singleton_batch (M : Nat) (sz : TranslationEvent → Nat)
    (beh : Nat → Nat → AttemptResult) (s : Session) (e : TranslationEvent) :
    send_translation_event M sz beh s e = send_translation_events M sz beh s [e] := rfl

/-! ## Claim C7: close is not double-log safe -/

/-- C7 counterexample: connecting and then calling close twice logs the
statistics snapshot twice, not exactly once over the session lifetime. -/
theorem double_close_double_logs_counterexample :
    ¬ ((close (close ((connect freshSession true).1))).statsLogCount = 1) := by
  decide

/-- C7 corrected: close on a never-connected session is a no-op that cannot
raise, but close never clears the producer handle, so every close call on a
connected session emits the statistics snapshot again: two closes in a row
log it twice. -/
theorem close_logs_per_call (s : Session) (hc : s.producer = true) :
    close freshSession = freshSession
    ∧ (close s).producer = s.producer
    ∧ (close s).stats = s.stats
    ∧ (close s).statsLogCount = s.statsLogCount + 1
    ∧ (close (close s)).statsLogCount = s.statsLogCount + 2 := by
  refine ⟨rfl, ?_, ?_, ?_, ?_⟩ <;> simp [close, hc]

theorem close_logs_per_call_witness :
    (close connSession).statsLogCount = connSession.statsLogCount + 1
    ∧ (close (close connSession)).statsLogCount = connSession.statsLogCount + 2 :=
  ⟨(close_logs_per_call connSession rfl).2.2.2.1,
   (close_logs_per_call connSession rfl).2.2.2.2⟩

end EventSender
